import Mathlib

/-!
Verification of the URL transformation / proxy-routing engine and the
content-ratio-gated auto-processing decision logic of the
obsidian-metadata-link-parser repository.

The TypeScript sources are embedded shallowly:

* `src/url-transformer/url-transformer.ts` (class UrlTransformer):
  matchesPattern, matchesRule, findMatchingRule, applyTransformation,
  extractProxyBaseUrl, isCacheValid, checkProxyHealthWithTimeout,
  checkProxyHealth, transformUrl.
* `src/parse-metadata-link.ts` (autoProcessFileIfLonger): the
  merge/skip decision core, embedded as autoProcessDecide.

Platform builtins used by the source (the WHATWG URL constructor,
String.prototype.replace, the network request primitive) are not code of the
repository; they are modelled explicitly below, each with a doc comment
saying exactly what is and is not modelled.  Stateful code (the proxy
health cache) is embedded by explicit state passing: every operation takes
the cache and the current time and returns the result together with the new
cache and the list of network probe URLs it issued, so that "no network
activity" is the provable statement "the probe list is empty".
-/

/-- Backtick character (code 96), written by code point because the source
file format cannot contain a literal backtick outside strings. -/
def backtickChar : Char := Char.ofNat 96

/-- Single-quote character (code 39). -/
def quoteChar : Char := Char.ofNat 39

/-- Locate the first occurrence of `pat` inside `s` (the search performed by
JavaScript's `String.prototype.replace` with a string pattern): returns the
characters strictly before the first match and the characters strictly after
it, or `none` when `pat` does not occur in `s`.  The empty pattern matches at
position 0, as in JavaScript. -/
def findSplit (pat : List Char) : List Char → Option (List Char × List Char)
  | [] => if pat = [] then some ([], []) else none
  | c :: rest =>
    if pat.isPrefixOf (c :: rest) then some ([], (c :: rest).drop pat.length)
    else
      match findSplit pat rest with
      | none => none
      | some (before, after) => some (c :: before, after)

/-- Replacement-string interpretation of JavaScript's
`String.prototype.replace` (ECMAScript GetSubstitution) for a string search
pattern: in the replacement text, `$$` yields `$`, `$&` yields the matched
substring, a dollar followed by a backtick yields the portion before the
match, `$` followed by a single quote yields the portion after the match, and
every other character (including `$` followed by anything else — there are no
capture groups for a string pattern) is copied literally. -/
def substDollar (matched before after : List Char) : List Char → List Char
  | [] => []
  | [c] => [c]
  | c :: d :: rest =>
    if c = '$' then
      if d = '$' then '$' :: substDollar matched before after rest
      else if d = '&' then matched ++ substDollar matched before after rest
      else if d = backtickChar then before ++ substDollar matched before after rest
      else if d = quoteChar then after ++ substDollar matched before after rest
      else c :: substDollar matched before after (d :: rest)
    else c :: substDollar matched before after (d :: rest)

/-- Model of the platform builtin `s.replace(pat, repl)` for string `pat`
(not code of this repository): replace the first occurrence of `pat` in `s`,
interpreting `$`-escapes in `repl` per `substDollar`; if `pat` does not
occur, return `s` unchanged. -/
def jsReplaceFirst (s pat repl : String) : String :=
  match findSplit pat.data s.data with
  | none => s
  | some (before, after) => ⟨before ++ substDollar pat.data before after repl.data ++ after⟩

/-- Spec-side replacement, following the words of spec §4.2 ("replace the
first occurrence of `{url}` in the template with the raw URL"): the first
occurrence of `pat` in `s` is replaced by `repl` copied literally.  Used as
the refinement target that `jsReplaceFirst` is compared against. -/
def specReplaceFirst (s pat repl : String) : String :=
  match findSplit pat.data s.data with
  | none => s
  | some (before, after) => ⟨before ++ repl.data ++ after⟩

/-- Parsed components of a URL: scheme (without the trailing colon), host,
and `pathFull` = pathname + search + hash. -/
structure UrlParts where
  scheme : String
  host : String
  pathFull : String
  deriving DecidableEq

/-- Host characters of the part of a URL following `://`: everything up to
the first `/ ? # :`. -/
def hostChars (rest : List Char) : List Char :=
  rest.takeWhile (fun c => !(c == '/' || c == '?' || c == '#' || c == ':'))

/-- Strip an optional leading `:digits` port from the characters following
the host. -/
def portStripped (afterHost : List Char) : List Char :=
  match afterHost with
  | [] => []
  | c :: t => if c = ':' then t.dropWhile (fun d => d.isDigit) else c :: t

/-- Prepend `/` when the remainder does not already start with it (the
builtin's pathname always starts with a slash). -/
def ensureSlash (rest2 : List Char) : List Char :=
  match rest2 with
  | [] => ['/']
  | c :: t => if c = '/' then c :: t else '/' :: c :: t

/-- Path + search + hash characters of the part of a URL following `://`
(see the parseUrl doc comment): skip the host and an optional `:digits`
port, and prepend `/` when the remainder does not already start with it. -/
def pathChars (rest : List Char) : List Char :=
  ensureSlash (portStripped (rest.drop (hostChars rest).length))

/-- Modelled from the host platform's WHATWG URL builtin (`new URL`, used by
the source but not code of this repository).  A URL parses iff it has the
shape `scheme://host[rest]` with a nonempty scheme containing none of
`: / ? #` and a nonempty host; the host is everything up to the first
`/ ? # :` after `://`, an optional `:digits` port is skipped, and `pathFull`
models `pathname + search + hash` (the remainder, with `/` prepended when it
does not already start with `/`, so that an absent path reads `/` as in the
builtin).  Host-case normalization, percent-encoding, userinfo and
non-special schemes are not modelled. -/
def parseUrl (s : String) : Option UrlParts :=
  match findSplit [':', '/', '/'] s.data with
  | none => none
  | some (schemeCs, rest) =>
    if schemeCs.isEmpty then none
    else if schemeCs.any (fun c => c == ':' || c == '/' || c == '?' || c == '#') then none
    else if (hostChars rest).isEmpty then none
    else some { scheme := ⟨schemeCs⟩, host := ⟨hostChars rest⟩, pathFull := ⟨pathChars rest⟩ }

/-- Hostname of a URL as produced by the modelled URL parser, or `none` when
parsing fails (where the platform builtin would throw). -/
def parseHostname (s : String) : Option String :=
  (parseUrl s).map (fun u => u.host)

/-- Model of the string builtin `s.startsWith(pre)` on the character
sequence (JavaScript compares code units; on the code points involved here
the two views agree). -/
def strStartsWith (s pre : String) : Bool :=
  pre.data.isPrefixOf s.data

/-- Model of the string builtin `s.endsWith(post)` on the character
sequence. -/
def strEndsWith (s post : String) : Bool :=
  post.data.isSuffixOf s.data

/-- Model of the string builtin `s.substring(n)` on the character
sequence. -/
def strDrop (s : String) (n : Nat) : String :=
  ⟨s.data.drop n⟩

/-- Rule data model, from `src/url-transformer/transformation-types.ts`
(interface TransformationRule).  `transformationType` is kept as a string
because the source switches on it with a default branch. -/
structure TransformationRule where
  id : String
  name : String
  enabled : Bool
  matchers : List String
  transformationType : String
  template : String
  priority : Int
  deriving DecidableEq

/-- Embedding of UrlTransformer.matchesPattern
(`src/url-transformer/url-transformer.ts` lines 16–35): hostname-based
matching with the universal wildcard `*`, the subdomain wildcard `*.domain`
(hostname equal to `domain` or ending in `.domain`), and exact hostname
equality otherwise; a URL the parser rejects (where `new URL` throws and the
source catches) matches nothing. -/
def matchesPattern (url pattern : String) : Bool :=
  match parseHostname url with
  | none => false
  | some hostname =>
    if pattern = "*" then true
    else if strStartsWith pattern "*." then
      let domain := strDrop pattern 2
      hostname == domain || strEndsWith hostname ("." ++ domain)
    else hostname == pattern

/-- Embedding of UrlTransformer.matchesRule (lines 37–43): a rule matches iff
it is enabled and some matcher pattern matches. -/
def matchesRule (url : String) (rule : TransformationRule) : Bool :=
  if !rule.enabled then false
  else rule.matchers.any (fun matcher => matchesPattern url matcher)

/-- Stable insertion into a list sorted by descending priority: the inserted
element goes in front of the first element whose priority does not exceed
its own, so earlier input elements stay ahead of later equal-priority ones. -/
def insertDesc (x : TransformationRule) : List TransformationRule → List TransformationRule
  | [] => [x]
  | y :: ys => if y.priority ≤ x.priority then x :: y :: ys else y :: insertDesc x ys

/-- Model of `matchingRules.sort((a, b) => b.priority - a.priority)` in the
source (line 52): a stable sort by descending numeric priority.
ECMAScript 2019 requires Array.prototype.sort to be stable, so equal
priorities keep their input order; the model realizes that contract as an
insertion sort. -/
def sortByPriorityDesc : List TransformationRule → List TransformationRule
  | [] => []
  | x :: xs => insertDesc x (sortByPriorityDesc xs)

/-- Embedding of UrlTransformer.findMatchingRule (lines 45–54): filter to the
applicable rules, return `none` if there are none, otherwise the head of the
list sorted by descending priority. -/
def findMatchingRule (url : String) (rules : List TransformationRule) : Option TransformationRule :=
  let matchingRules := rules.filter (fun rule => matchesRule url rule)
  if matchingRules.isEmpty then none
  else (sortByPriorityDesc matchingRules).head?

/-- Embedding of UrlTransformer.applyTransformation (lines 56–81).  The
source switches on the transformation type; `"path-extraction"` substitutes
`{url}`, then `{path}` (pathname + search + hash), then `{domain}`
(hostname), falling back to the `{url}`-only substitution when URL parsing
fails; the `"prefix"` case and the default case both substitute `{url}`
only.  Each substitution is the platform replace builtin `jsReplaceFirst`. -/
def applyTransformation (url : String) (rule : TransformationRule) : String :=
  if rule.transformationType = "path-extraction" then
    match parseUrl url with
    | some u =>
      jsReplaceFirst (jsReplaceFirst (jsReplaceFirst rule.template "{url}" url) "{path}" u.pathFull)
        "{domain}" u.host
    | none => jsReplaceFirst rule.template "{url}" url
  else jsReplaceFirst rule.template "{url}" url

/-- Spec-side template expander, following the words of spec §4.2, used as
the refinement target for applyTransformation: `prefix` replaces the first
occurrence of `{url}` in the template with the raw URL, literally;
`path-extraction` substitutes `{url}`, `{path}` and `{domain}` each once,
literally, and degrades to the prefix behavior when URL parsing fails. -/
def specApplyTransformation (url : String) (rule : TransformationRule) : String :=
  if rule.transformationType = "path-extraction" then
    match parseUrl url with
    | some u =>
      specReplaceFirst
        (specReplaceFirst (specReplaceFirst rule.template "{url}" url) "{path}" u.pathFull)
        "{domain}" u.host
    | none => specReplaceFirst rule.template "{url}" url
  else specReplaceFirst rule.template "{url}" url

/-- Embedding of UrlTransformer.extractProxyBaseUrl (lines 83–91):
scheme + "://" + hostname of the transformed URL (the protocol property
carries the colon), or the input itself when parsing fails. -/
def extractProxyBaseUrl (transformedUrl : String) : String :=
  match parseUrl transformedUrl with
  | some u => u.scheme ++ "://" ++ u.host
  | none => transformedUrl

/-- Outcome of one network probe (the `requestUrl` platform primitive with a
HEAD method and an abort timer, as used in checkProxyHealthWithTimeout):
either a response with a numeric status, or a thrown failure — network
error, abort or timeout all surface as the catch branch in the source. -/
inductive RequestOutcome where
  | success (status : Int)
  | failure
  deriving DecidableEq

/-- Embedding of UrlTransformer.checkProxyHealthWithTimeout (lines 103–120)
as a function of the probe outcome: healthy iff the response status is in
[200, 400); every thrown error (network failure or timeout abort) is caught
and yields false.  Totality of this function is the embedded form of "never
propagated as an exception past the health-check boundary". -/
def checkProxyHealthWithTimeout (outcome : RequestOutcome) : Bool :=
  match outcome with
  | .success status => decide (200 ≤ status) && decide (status < 400)
  | .failure => false

/-- Cache entry, from the ProxyHealthCache interface of
`transformation-types.ts`: a health boolean and the timestamp (ms) of the
last check. -/
structure HealthEntry where
  healthy : Bool
  lastChecked : Int
  deriving DecidableEq

/-- The proxy health cache, keyed by proxy origin.  The source's plain
object is modelled as an association list in which the most recent binding
of a key shadows older ones (List.lookup finds the first). -/
abbrev ProxyHealthCache := List (String × HealthEntry)

/-- Embedding of UrlTransformer.isCacheValid (lines 93–101): an entry exists
for the origin and its age (now − lastChecked) is strictly below the TTL. -/
def isCacheValid (ttlMs : Int) (cache : ProxyHealthCache) (now : Int) (proxyBaseUrl : String) : Bool :=
  match cache.lookup proxyBaseUrl with
  | none => false
  | some entry => decide (now - entry.lastChecked < ttlMs)

/-- Result of a health check: the boolean, the cache after the call, and the
list of URLs probed over the network (empty = no network activity). -/
structure HealthCheckResult where
  healthy : Bool
  cache : ProxyHealthCache
  probes : List String
  deriving DecidableEq

/-- The fixed canonical test URL of `url-transformer.ts` line 4. -/
def TEST_URL : String := "https://example.com/test"

/-- Embedding of UrlTransformer.checkProxyHealth (lines 122–140), with the
network modelled as an oracle `w` mapping each probed URL to its request
outcome and time passed in explicitly (the source reads Date.now(); the
model uses one instant `now` for the validity check and the cache write of a
single call).  On a valid cache entry the cached boolean is returned with no
probe; otherwise the test URL expanded through the rule is probed, the bare
origin is probed as a fallback if that was not healthy, and the resulting
boolean is written to the cache with the current timestamp. -/
def checkProxyHealth (w : String → RequestOutcome) (ttlMs : Int) (rule : TransformationRule)
    (proxyBaseUrl : String) (cache : ProxyHealthCache) (now : Int) : HealthCheckResult :=
  if isCacheValid ttlMs cache now proxyBaseUrl then
    { healthy := ((cache.lookup proxyBaseUrl).getD { healthy := false, lastChecked := 0 }).healthy
      cache := cache
      probes := [] }
  else
    let testTransformedUrl := applyTransformation TEST_URL rule
    let h1 := checkProxyHealthWithTimeout (w testTransformedUrl)
    if h1 then
      { healthy := true
        cache := (proxyBaseUrl, { healthy := true, lastChecked := now }) :: cache
        probes := [testTransformedUrl] }
    else
      let h2 := checkProxyHealthWithTimeout (w proxyBaseUrl)
      { healthy := h2
        cache := (proxyBaseUrl, { healthy := h2, lastChecked := now }) :: cache
        probes := [testTransformedUrl, proxyBaseUrl] }

/-- Result value of a transformation, from the TransformationResult
interface of `transformation-types.ts`: `transformedUrl` is null (`none`) on
failure, `appliedRule` and `error` are optional. -/
structure TransformationResult where
  transformedUrl : Option String
  originalUrl : String
  appliedRule : Option String
  proxyHealthy : Bool
  error : Option String
  deriving DecidableEq

/-- Full outcome of one transformUrl call: the result value, the cache after
the call, and the URLs probed over the network during it. -/
structure TransformOutcome where
  result : TransformationResult
  cache : ProxyHealthCache
  probes : List String
  deriving DecidableEq

/-- Embedding of UrlTransformer.transformUrl (lines 142–174): resolve the
matching rule (pass through unchanged with health true when none), expand
the template, derive the proxy origin, check health, and return either the
structured failure (null URL, health false, the unavailability message
naming the rule) or the success result. -/
def transformUrl (w : String → RequestOutcome) (ttlMs : Int) (url : String)
    (rules : List TransformationRule) (cache : ProxyHealthCache) (now : Int) : TransformOutcome :=
  match findMatchingRule url rules with
  | none =>
    { result :=
        { transformedUrl := some url, originalUrl := url, appliedRule := none
          proxyHealthy := true, error := none }
      cache := cache
      probes := [] }
  | some matchingRule =>
    let transformedUrl := applyTransformation url matchingRule
    let proxyBaseUrl := extractProxyBaseUrl transformedUrl
    let hc := checkProxyHealth w ttlMs matchingRule proxyBaseUrl cache now
    if hc.healthy then
      { result :=
          { transformedUrl := some transformedUrl, originalUrl := url
            appliedRule := some matchingRule.name, proxyHealthy := true, error := none }
        cache := hc.cache
        probes := hc.probes }
    else
      { result :=
          { transformedUrl := none, originalUrl := url
            appliedRule := some matchingRule.name, proxyHealthy := false
            error := some ("Proxy service \"" ++ matchingRule.name ++ "\" is currently unavailable") }
        cache := hc.cache
        probes := hc.probes }

/-- Embedding of the auto-processing decision core of
autoProcessFileIfLonger (`src/parse-metadata-link.ts`): return false when
the file is already processed (the isFileProcessed early return); otherwise
compute ratio = fetched / existing when the existing body is nonempty and
the raw fetched length when it is empty, and merge iff ratio ≥ the
configured minimum ratio.  JavaScript numbers are modelled as exact
rationals; the claims proved below only exercise points where double
rounding is exact. -/
def autoProcessDecide (alreadyProcessed : Bool) (existingBodyLength fetchedLength : Nat)
    (minContentRatio : ℚ) : Bool :=
  if alreadyProcessed then false
  else
    let ratio : ℚ :=
      if 0 < existingBodyLength then (fetchedLength : ℚ) / (existingBodyLength : ℚ)
      else (fetchedLength : ℚ)
    decide (minContentRatio ≤ ratio)

/-- Failure classification of a probe outcome in the words of the claim
under test: a network error or timeout (the thrown case), or a response
status outside [200, 400). -/
def probeFails (outcome : RequestOutcome) : Bool :=
  match outcome with
  | .failure => true
  | .success status => decide (status < 200) || decide (400 ≤ status)

/-- First built-in default rule (default-templates.ts), enabled, used as a
concrete fixture by witnesses below. -/
def freediumRule : TransformationRule :=
  { id := "freedium-medium", name := "Medium via Freedium", enabled := true
    matchers := ["*.medium.com", "medium.com"], transformationType := "prefix"
    template := "https://freedium-mirror.cfd/{url}", priority := 100 }

/-- Prefix rule fixture whose template has a `{url}` placeholder. -/
def prefixDollarRule : TransformationRule :=
  { id := "r", name := "r", enabled := true, matchers := ["*"]
    transformationType := "prefix", template := "https://p/{url}", priority := 0 }

/-- Path-extraction rule fixture with the template of spec §8's example. -/
def pathRule : TransformationRule :=
  { id := "pe", name := "pe", enabled := true, matchers := ["*"]
    transformationType := "path-extraction", template := "https://p/{domain}{path}", priority := 0 }

/-- Prefix rule fixture whose template has no placeholder at all. -/
def noPlaceholderRule : TransformationRule :=
  { id := "s", name := "s", enabled := true, matchers := ["*"]
    transformationType := "prefix", template := "https://static.example/page", priority := 0 }

/-- Disabled rule fixture: never applicable. -/
def disabledRule : TransformationRule :=
  { id := "d", name := "d", enabled := false, matchers := ["*"]
    transformationType := "prefix", template := "https://d/{url}", priority := 999 }

/-- Enabled universal rule fixture of priority 5, listed first. -/
def wRuleA : TransformationRule :=
  { id := "a", name := "A", enabled := true, matchers := ["*"]
    transformationType := "prefix", template := "https://a/{url}", priority := 5 }

/-- Enabled universal rule fixture of priority 5, listed second. -/
def wRuleB : TransformationRule :=
  { id := "b", name := "B", enabled := true, matchers := ["*"]
    transformationType := "prefix", template := "https://b/{url}", priority := 5 }

/-- Network oracle fixture in which every probe throws. -/
def wAllDown : String → RequestOutcome := fun _ => .failure

/-- Network oracle fixture in which every probe answers 200. -/
def wAllUp : String → RequestOutcome := fun _ => .success 200

/-- Universal rule fixture routing to https://proxy.example. -/
def staleRule : TransformationRule :=
  { id := "p", name := "P", enabled := true, matchers := ["*"]
    transformationType := "prefix", template := "https://proxy.example/{url}", priority := 0 }

/-- Cache fixture holding a healthy entry for https://proxy.example written
at time 0. -/
def staleCache : ProxyHealthCache :=
  [("https://proxy.example", { healthy := true, lastChecked := 0 })]

/-- String append acts as list append on the underlying character data. -/
theorem strData_append (a b : String) : (a ++ b).data = a.data ++ b.data := rfl

/-- When findSplit finds the pattern, the input string is exactly the part
before, the pattern, and the part after. -/
theorem findSplit_eq_append {pat : List Char} :
    ∀ {s before after : List Char}, findSplit pat s = some (before, after) →
      s = before ++ pat ++ after := by
  intro s
  induction s with
  | nil =>
    intro before after h
    unfold findSplit at h
    split at h
    · next hp => injection h with h2; injection h2 with hb ha; subst hb; subst ha; simp [hp]
    · exact absurd h (by simp)
  | cons c rest ih =>
    intro before after h
    unfold findSplit at h
    split at h
    · next hp =>
      injection h with h2; injection h2 with hb ha; subst hb; subst ha
      obtain ⟨t, ht⟩ := List.isPrefixOf_iff_prefix.mp hp
      rw [← ht, List.drop_left]
      simp
    · cases hfs : findSplit pat rest with
      | none => rw [hfs] at h; exact absurd h (by simp)
      | some p =>
        obtain ⟨b2, a2⟩ := p
        rw [hfs] at h
        injection h with h2; injection h2 with hb ha; subst hb; subst ha
        rw [ih hfs]
        simp

/-- findSplit fails exactly when the pattern occurs nowhere in the input. -/
theorem findSplit_eq_none_iff {pat : List Char} :
    ∀ {s : List Char}, findSplit pat s = none ↔ ¬ pat <:+: s := by
  intro s
  induction s with
  | nil =>
    unfold findSplit
    split
    · next hp => subst hp; simp
    · next hp => simp [List.infix_nil, hp]
  | cons c rest ih =>
    unfold findSplit
    split
    · next hp =>
      constructor
      · intro h; exact absurd h (by simp)
      · intro h
        exact absurd (List.infix_cons_iff.mpr (Or.inl (List.isPrefixOf_iff_prefix.mp hp))) h
    · next hp =>
      have hnpre : ¬ pat <+: c :: rest := fun hc =>
        hp (List.isPrefixOf_iff_prefix.mpr hc)
      cases hfs : findSplit pat rest with
      | none =>
        simp only [List.infix_cons_iff]
        have := ih.mp hfs
        simp [hnpre, this]
      | some p =>
        obtain ⟨b2, a2⟩ := p
        constructor
        · intro h; exact absurd h (by simp)
        · intro h
          have : pat <:+: rest := by
            by_contra hcon
            rw [← ih] at hcon
            rw [hcon] at hfs
            exact absurd hfs (by simp)
          exact absurd (List.infix_cons_iff.mpr (Or.inr this)) h

/-- A replacement text containing no dollar sign is copied verbatim by the
GetSubstitution interpretation. -/
theorem substDollar_eq_self (m b a : List Char) :
    ∀ (l : List Char), '$' ∉ l → substDollar m b a l = l
  | [], _ => rfl
  | [_], _ => rfl
  | c :: d :: rest, h => by
    have hc : ¬ c = '$' := fun e => h (by simp [e])
    have hrest : '$' ∉ d :: rest := fun e => h (List.mem_cons_of_mem _ e)
    unfold substDollar
    rw [if_neg hc, substDollar_eq_self m b a (d :: rest) hrest]

/-- For a dollar-free replacement string, the platform replace builtin and
the spec's literal replacement agree. -/
theorem jsReplaceFirst_eq_spec {s pat repl : String} (h : '$' ∉ repl.data) :
    jsReplaceFirst s pat repl = specReplaceFirst s pat repl := by
  unfold jsReplaceFirst specReplaceFirst
  cases hfs : findSplit pat.data s.data with
  | none => rfl
  | some p =>
    obtain ⟨b, a⟩ := p
    simp [substDollar_eq_self _ _ _ _ h]

/-- Port stripping only removes characters. -/
theorem portStripped_mem {l : List Char} {c : Char} (h : c ∈ portStripped l) : c ∈ l := by
  cases l with
  | nil => simp [portStripped] at h
  | cons d t =>
    by_cases hd : d = ':'
    · simp only [portStripped, if_pos hd] at h
      exact List.mem_cons_of_mem _ ((List.dropWhile_sublist _).mem h)
    · simp only [portStripped, if_neg hd] at h
      exact h

/-- Slash insertion only adds the slash character. -/
theorem ensureSlash_mem {l : List Char} {c : Char} (h : c ∈ ensureSlash l) :
    c = '/' ∨ c ∈ l := by
  cases l with
  | nil =>
    simp only [ensureSlash] at h
    simp at h
    exact Or.inl h
  | cons d t =>
    by_cases hd : d = '/'
    · simp only [ensureSlash, if_pos hd] at h
      exact Or.inr h
    · simp only [ensureSlash, if_neg hd] at h
      rcases List.mem_cons.mp h with h | h
      · exact Or.inl h
      · exact Or.inr h

/-- Characters of pathChars are either the inserted leading slash or
characters of the input. -/
theorem pathChars_mem {rest : List Char} {c : Char} (h : c ∈ pathChars rest) :
    c = '/' ∨ c ∈ rest := by
  unfold pathChars at h
  rcases ensureSlash_mem h with h | h
  · exact Or.inl h
  · exact Or.inr ((List.drop_sublist _ _).mem (portStripped_mem h))

/-- Characters of the parsed host and path of a URL come from the URL text
itself (the path possibly adding a leading slash). -/
theorem parseUrl_mem {url : String} {u : UrlParts} (h : parseUrl url = some u) :
    (∀ c ∈ u.host.data, c ∈ url.data) ∧ (∀ c ∈ u.pathFull.data, c = '/' ∨ c ∈ url.data) := by
  cases hfs : findSplit [':', '/', '/'] url.data with
  | none =>
    simp only [parseUrl, hfs] at h
    exact absurd h (by simp)
  | some p =>
    obtain ⟨schemeCs, rest⟩ := p
    simp only [parseUrl, hfs] at h
    have hsplit := findSplit_eq_append hfs
    have hrestmem : ∀ c, c ∈ rest → c ∈ url.data := by
      intro c hc; rw [hsplit]; simp [hc]
    split at h
    · exact absurd h (by simp)
    · split at h
      · exact absurd h (by simp)
      · split at h
        · exact absurd h (by simp)
        · injection h with h
          subst h
          constructor
          · intro c hc
            exact hrestmem c ((List.takeWhile_sublist _).mem hc)
          · intro c hc
            rcases pathChars_mem hc with hc | hc
            · exact Or.inl hc
            · exact Or.inr (hrestmem c hc)

/-- Inserting into a list never yields the empty list. -/
theorem insertDesc_ne_nil (x : TransformationRule) (l : List TransformationRule) :
    insertDesc x l ≠ [] := by
  cases l with
  | nil => simp [insertDesc]
  | cons y ys =>
    unfold insertDesc
    split <;> simp

/-- The stable descending sort of a list is empty only for the empty list. -/
theorem sortByPriorityDesc_eq_nil {l : List TransformationRule}
    (h : sortByPriorityDesc l = []) : l = [] := by
  cases l with
  | nil => rfl
  | cons x xs => exact absurd h (insertDesc_ne_nil x _)

/-- The head of the stable descending sort is a member of the list, has the
maximum priority, and is the first element of the list achieving it (every
earlier element has strictly smaller priority). -/
theorem sortByPriorityDesc_head_spec (l : List TransformationRule) :
    ∀ r, (sortByPriorityDesc l).head? = some r →
      r ∈ l ∧ (∀ x ∈ l, x.priority ≤ r.priority) ∧
        ∃ pre post, l = pre ++ r :: post ∧ ∀ x ∈ pre, x.priority < r.priority := by
  induction l with
  | nil => intro r h; simp [sortByPriorityDesc] at h
  | cons x xs ih =>
    intro r h
    rw [sortByPriorityDesc] at h
    cases hs : sortByPriorityDesc xs with
    | nil =>
      rw [hs] at h
      simp [insertDesc] at h
      subst h
      have hxs : xs = [] := sortByPriorityDesc_eq_nil hs
      subst hxs
      exact ⟨by simp, by simp, [], [], by simp, by simp⟩
    | cons z zs =>
      rw [hs] at h
      obtain ⟨hzmem, hzmax, pre, post, hdecomp, hpre⟩ := ih z (by rw [hs]; rfl)
      unfold insertDesc at h
      split at h
      · next hle =>
        simp at h
        subst h
        refine ⟨by simp, ?_, [], xs, by simp, by simp⟩
        intro y hy
        rcases List.mem_cons.mp hy with hy | hy
        · subst hy; exact le_refl _
        · exact le_trans (hzmax y hy) hle
      · next hgt =>
        simp at h
        subst h
        have hxlt : x.priority < z.priority := lt_of_not_ge hgt
        refine ⟨List.mem_cons_of_mem _ hzmem, ?_, x :: pre, post, by rw [hdecomp]; rfl, ?_⟩
        · intro y hy
          rcases List.mem_cons.mp hy with hy | hy
          · subst hy; exact le_of_lt hxlt
          · exact hzmax y hy
        · intro y hy
          rcases List.mem_cons.mp hy with hy | hy
          · subst hy; exact hxlt
          · exact hpre y hy

/-- C1 counterexample: with no existing body, a fetched length of 1 is
positive, yet the decision is NOT to merge under the default ratio 2.0 —
the claim "shouldMerge = true whenever fetchedLength > 0" fails at
fetchedLength = 1, because the degenerate ratio is the raw fetched length
and it is still compared against minRatio. -/
theorem autoProcessDecide_zero_body_cx :
    0 < 1 ∧ autoProcessDecide false 0 1 2 = false := by
  constructor
  · decide
  · unfold autoProcessDecide
    norm_num

/-- C1 (amended): with alreadyProcessed = false, existing body length 0 and
minRatio = 2.0, the decision is to merge exactly when the fetched content
length is at least 2 — the ratio degenerates to the raw fetched length,
which is still compared against the threshold, so not every positive
fetched length passes. -/
theorem autoProcessDecide_zero_body (fetchedLength : Nat) :
    autoProcessDecide false 0 fetchedLength 2 = true ↔ 2 ≤ fetchedLength := by
  unfold autoProcessDecide
  simp only [lt_irrefl, if_false, if_neg (Bool.false_ne_true), Bool.false_eq_true]
  norm_num

/-- C1 witness: the spec's own example decide(false, 0, 50, 2.0) merges,
while fetched length 1 does not. -/
theorem autoProcessDecide_zero_body_witness :
    autoProcessDecide false 0 50 2 = true ∧ autoProcessDecide false 0 1 2 ≠ true := by
  constructor
  · exact (autoProcessDecide_zero_body 50).mpr (by norm_num)
  · intro h
    have := (autoProcessDecide_zero_body 1).mp h
    omega

/-- C4: once the already-processed marker is true, the decision is false for
every existing body length, fetched length and ratio threshold — the
Processed state is terminal for this decision. -/
theorem autoProcessDecide_processed_terminal
    (existingBodyLength fetchedLength : Nat) (minContentRatio : ℚ) :
    autoProcessDecide true existingBodyLength fetchedLength minContentRatio = false := rfl

/-- C2: findMatchingRule is a pure function of the URL and the rule list (so
repeated calls with the same input order are deterministic); it returns none
exactly when no enabled rule matches, and otherwise returns an applicable
rule of maximal priority that occurs before every other maximal-priority
applicable rule in the input order (ECMAScript 2019 stable-sort tie-break).
-/
theorem findMatchingRule_priority_spec (url : String) (rules : List TransformationRule) :
    (rules.filter (fun rule => matchesRule url rule) = [] →
      findMatchingRule url rules = none) ∧
    (rules.filter (fun rule => matchesRule url rule) ≠ [] →
      ∃ r, findMatchingRule url rules = some r ∧
        r ∈ rules.filter (fun rule => matchesRule url rule) ∧
        (∀ x ∈ rules.filter (fun rule => matchesRule url rule), x.priority ≤ r.priority) ∧
        ∃ pre post, rules.filter (fun rule => matchesRule url rule) = pre ++ r :: post ∧
          ∀ x ∈ pre, x.priority < r.priority) := by
  constructor
  · intro h
    unfold findMatchingRule
    simp [h]
  · intro h
    unfold findMatchingRule
    rw [if_neg (by simpa using h)]
    have hsne : sortByPriorityDesc (rules.filter (fun rule => matchesRule url rule)) ≠ [] :=
      fun e => h (sortByPriorityDesc_eq_nil e)
    cases hsort : sortByPriorityDesc (rules.filter (fun rule => matchesRule url rule)) with
    | nil => exact absurd hsort hsne
    | cons z zs =>
      obtain ⟨hmem, hmax, pre, post, hdecomp, hpre⟩ :=
        sortByPriorityDesc_head_spec _ z (by rw [hsort]; rfl)
      exact ⟨z, rfl, hmem, hmax, pre, post, hdecomp, hpre⟩

/-- C2 witness: of two enabled, universally matching rules of equal priority
listed A before B, the engine picks A (first occurrence in input order), and
with no rules it returns none. -/
theorem findMatchingRule_priority_spec_witness :
    findMatchingRule "https://x.com/a" [wRuleA, wRuleB] = some wRuleA ∧
    findMatchingRule "https://x.com/a" [] = none := by
  constructor
  · obtain ⟨r, hr, hmem, hmax, pre, post, hdecomp, hpre⟩ :=
      (findMatchingRule_priority_spec "https://x.com/a" [wRuleA, wRuleB]).2 (by decide)
    have hfil : ([wRuleA, wRuleB].filter (fun rule => matchesRule "https://x.com/a" rule)) =
        [wRuleA, wRuleB] := by decide
    rw [hfil] at hdecomp
    cases pre with
    | nil =>
      simp at hdecomp
      rw [hr, hdecomp.1]
    | cons p ps =>
      exfalso
      cases ps with
      | nil =>
        simp at hdecomp
        obtain ⟨hpA, hrB, -⟩ := hdecomp
        have := hpre p (by simp)
        rw [← hpA, ← hrB] at this
        exact absurd this (by decide)
      | cons q qs =>
        simp at hdecomp
  · exact (findMatchingRule_priority_spec "https://x.com/a" []).1 rfl

/-- C8: for a URL the parser accepts, a pattern of the form `*.x` matches
exactly when the URL's hostname equals `x` or ends with `.x` (subdomain
match, not substring match); for a URL the parser rejects, every pattern
fails to match — and matching is a total function, so nothing is thrown. -/
theorem matchesPattern_subdomain_spec (url x hostname : String) :
    (parseHostname url = some hostname →
      matchesPattern url ("*." ++ x) =
        (hostname == x || strEndsWith hostname ("." ++ x))) ∧
    (parseHostname url = none → ∀ pattern, matchesPattern url pattern = false) := by
  constructor
  · intro hparse
    have hne : ("*." ++ x) ≠ "*" := by
      intro e
      have := congrArg String.data e
      rw [strData_append] at this
      simp at this
    have hstar : strStartsWith ("*." ++ x) "*." = true := by
      show ("*.".data.isPrefixOf (("*." ++ x).data)) = true
      rw [strData_append, List.isPrefixOf_iff_prefix]
      exact List.prefix_append _ _
    have hdrop : strDrop ("*." ++ x) 2 = x := by
      show (⟨(("*." ++ x).data).drop 2⟩ : String) = x
      rw [strData_append]
      show (⟨('*' :: '.' :: x.data).drop 2⟩ : String) = x
      rfl
    simp only [matchesPattern, hparse]
    rw [if_neg hne, if_pos hstar]
    rw [hdrop]
  · intro hparse pattern
    unfold matchesPattern
    rw [hparse]

/-- C8 witness: hostnames `medium.com` and `sub.medium.com` match the
pattern `*.medium.com`, while `evilmedium.com` and `notmedium.com` do not;
a malformed URL matches nothing. -/
theorem matchesPattern_subdomain_spec_witness :
    matchesPattern "https://sub.medium.com/a" ("*." ++ "medium.com") = true ∧
    matchesPattern "https://medium.com/a" ("*." ++ "medium.com") = true ∧
    matchesPattern "https://evilmedium.com/a" ("*." ++ "medium.com") = false ∧
    matchesPattern "https://notmedium.com/a" ("*." ++ "medium.com") = false ∧
    matchesPattern "not a url" "*" = false := by
  refine ⟨?_, ?_, ?_, ?_, ?_⟩
  · rw [(matchesPattern_subdomain_spec "https://sub.medium.com/a" "medium.com"
      "sub.medium.com").1 (by decide)]
    decide
  · rw [(matchesPattern_subdomain_spec "https://medium.com/a" "medium.com"
      "medium.com").1 (by decide)]
    decide
  · rw [(matchesPattern_subdomain_spec "https://evilmedium.com/a" "medium.com"
      "evilmedium.com").1 (by decide)]
    decide
  · rw [(matchesPattern_subdomain_spec "https://notmedium.com/a" "medium.com"
      "notmedium.com").1 (by decide)]
    decide
  · exact (matchesPattern_subdomain_spec "not a url" "" "").2 (by decide) "*"

/-- C7: when no rule matches, transformUrl passes the URL through unchanged
with proxyHealthy true, no applied rule, no error, an unchanged cache and no
network probe. -/
theorem transformUrl_pass_through (w : String → RequestOutcome) (ttlMs : Int)
    (url : String) (rules : List TransformationRule) (cache : ProxyHealthCache) (now : Int)
    (h : findMatchingRule url rules = none) :
    transformUrl w ttlMs url rules cache now =
      { result :=
          { transformedUrl := some url, originalUrl := url, appliedRule := none
            proxyHealthy := true, error := none }
        cache := cache
        probes := [] } := by
  unfold transformUrl
  rw [h]

/-- C7 witness: with only a disabled rule in the list, nothing matches and
the call passes through. -/
theorem transformUrl_pass_through_witness :
    transformUrl wAllDown 300000 "https://x.com/a" [disabledRule] [] 0 =
      { result :=
          { transformedUrl := some "https://x.com/a", originalUrl := "https://x.com/a"
            appliedRule := none, proxyHealthy := true, error := none }
        cache := []
        probes := [] } :=
  transformUrl_pass_through wAllDown 300000 "https://x.com/a" [disabledRule] [] 0 (by decide)

/-- C10: a prefix rule whose template does not contain the `{url}`
placeholder returns the template verbatim — the input URL is discarded,
because replacing an absent placeholder is the identity. -/
theorem applyTransformation_no_placeholder (url : String) (rule : TransformationRule)
    (htype : rule.transformationType = "prefix")
    (hno : ¬ "{url}".data <:+: rule.template.data) :
    applyTransformation url rule = rule.template := by
  have hfs : findSplit "{url}".data rule.template.data = none :=
    findSplit_eq_none_iff.mpr hno
  unfold applyTransformation
  rw [htype]
  rw [if_neg (by decide)]
  unfold jsReplaceFirst
  rw [hfs]

/-- C10 witness: a placeholder-free template is returned verbatim, for an
arbitrary concrete URL. -/
theorem applyTransformation_no_placeholder_witness :
    applyTransformation "https://x.com/a" noPlaceholderRule = "https://static.example/page" :=
  applyTransformation_no_placeholder "https://x.com/a" noPlaceholderRule rfl
    (findSplit_eq_none_iff.mp (by decide))

/-- C9 counterexample: the claim says a prefix rule replaces the first
`{url}` in the template with the RAW url, which for the URL "a$&b" and
template "https://p/{url}" would give "https://p/a$&b"; the platform replace
builtin instead interprets `$&` as "the matched substring", so the code
returns "https://p/a{url}b". -/
theorem applyTransformation_dollar_cx :
    applyTransformation "a$&b" prefixDollarRule = "https://p/a{url}b" ∧
    applyTransformation "a$&b" prefixDollarRule ≠ "https://p/a$&b" := by
  constructor
  · decide
  · decide

/-- C9 (amended): applyTransformation is total and pure, and for every URL
containing no dollar sign it coincides with the spec's literal expander:
prefix (and unknown types) replace the first `{url}` with the raw URL;
path-extraction substitutes `{url}`, then `{path}`, then `{domain}`, each
once, concatenating literally, degrading to the prefix behavior when URL
parsing fails.  For URLs containing `$`, the platform replace builtin's
escape sequences apply instead (see the counterexample). -/
theorem applyTransformation_amended (url : String) (rule : TransformationRule)
    (hnd : '$' ∉ url.data) :
    applyTransformation url rule = specApplyTransformation url rule := by
  unfold applyTransformation specApplyTransformation
  by_cases ht : rule.transformationType = "path-extraction"
  · rw [if_pos ht, if_pos ht]
    cases hp : parseUrl url with
    | none => exact jsReplaceFirst_eq_spec hnd
    | some u =>
      have hmem := parseUrl_mem hp
      have hhost : '$' ∉ u.host.data := fun hc => hnd (hmem.1 _ hc)
      have hpath : '$' ∉ u.pathFull.data := by
        intro hc
        rcases hmem.2 _ hc with h | h
        · exact absurd h (by decide)
        · exact hnd h
      show jsReplaceFirst
          (jsReplaceFirst (jsReplaceFirst rule.template "{url}" url) "{path}" u.pathFull)
          "{domain}" u.host =
        specReplaceFirst
          (specReplaceFirst (specReplaceFirst rule.template "{url}" url) "{path}" u.pathFull)
          "{domain}" u.host
      rw [jsReplaceFirst_eq_spec hnd, jsReplaceFirst_eq_spec hpath, jsReplaceFirst_eq_spec hhost]
  · rw [if_neg ht, if_neg ht]
    exact jsReplaceFirst_eq_spec hnd

/-- C9 witness: on spec §8's path-extraction example the code and the
literal expander agree, and the concrete value substitutes `{domain}` then
`{path}` with no separator beyond the template's own text (the path keeps
its leading slash). -/
theorem applyTransformation_amended_witness :
    applyTransformation "https://x.com/a/b?c=1" pathRule =
      specApplyTransformation "https://x.com/a/b?c=1" pathRule ∧
    applyTransformation "https://x.com/a/b?c=1" pathRule = "https://p/x.com/a/b?c=1" := by
  constructor
  · exact applyTransformation_amended "https://x.com/a/b?c=1" pathRule (by decide)
  · decide

/-- A failing probe outcome (thrown request or status outside [200, 400))
makes the time-boxed health check report false. -/
theorem checkProxyHealthWithTimeout_eq_false {outcome : RequestOutcome}
    (h : probeFails outcome = true) : checkProxyHealthWithTimeout outcome = false := by
  cases outcome with
  | failure => rfl
  | success status =>
    simp only [probeFails, Bool.or_eq_true, decide_eq_true_eq] at h
    simp only [checkProxyHealthWithTimeout, Bool.and_eq_false_iff]
    rcases h with h | h
    · left; simpa using by omega
    · right; simpa using by omega

/-- C6: a network error, timeout, or out-of-range status during a probe
yields healthy = false (first conjunct; the health check is a total
function, so no exception crosses the boundary), and on a cache miss where
both the template probe and the origin fallback probe fail, the call
returns false and records {healthy := false, lastChecked := now} in the
cache, exactly like any other result. -/
theorem probe_failure_unhealthy :
    (∀ outcome : RequestOutcome, probeFails outcome = true →
      checkProxyHealthWithTimeout outcome = false) ∧
    (∀ (w : String → RequestOutcome) (ttlMs : Int) (rule : TransformationRule)
        (proxyBaseUrl : String) (cache : ProxyHealthCache) (now : Int),
      isCacheValid ttlMs cache now proxyBaseUrl = false →
      probeFails (w (applyTransformation TEST_URL rule)) = true →
      probeFails (w proxyBaseUrl) = true →
      checkProxyHealth w ttlMs rule proxyBaseUrl cache now =
        { healthy := false
          cache := (proxyBaseUrl, { healthy := false, lastChecked := now }) :: cache
          probes := [applyTransformation TEST_URL rule, proxyBaseUrl] }) := by
  constructor
  · exact fun _ h => checkProxyHealthWithTimeout_eq_false h
  · intro w ttlMs rule proxyBaseUrl cache now hmiss hp1 hp2
    unfold checkProxyHealth
    rw [if_neg (by simp [hmiss])]
    simp only [checkProxyHealthWithTimeout_eq_false hp1, checkProxyHealthWithTimeout_eq_false hp2,
      Bool.false_eq_true, if_false]

/-- C6 witness: with every probe throwing and an empty cache, the default
rule's health check returns false and caches it at the current time. -/
theorem probe_failure_unhealthy_witness :
    checkProxyHealth wAllDown 300000 freediumRule "https://freedium-mirror.cfd" [] 0 =
      { healthy := false
        cache := [("https://freedium-mirror.cfd", { healthy := false, lastChecked := 0 })]
        probes := [applyTransformation TEST_URL freediumRule, "https://freedium-mirror.cfd"] } :=
  probe_failure_unhealthy.2 wAllDown 300000 freediumRule "https://freedium-mirror.cfd" [] 0
    (by decide) (by decide) (by decide)

/-- C3 counterexample: a cache that already holds a healthy entry written at
time 0 with TTL 10; the first call at t0 = 9 is a cache hit (no probe,
returns true), the second call at t1 = 11 — only 2ms after the first, well
within the TTL — finds the entry expired, performs network probes, and (all
probes failing) returns false: the second of two consecutive calls within
the TTL performed network activity and did not return the boolean the first
call read. -/
theorem checkProxyHealth_cached_cx :
    ((9 : Int) ≤ 11 ∧ (11 : Int) - 9 < 10) ∧
    (checkProxyHealth wAllDown 10 staleRule "https://proxy.example" staleCache 9).probes = [] ∧
    (checkProxyHealth wAllDown 10 staleRule "https://proxy.example"
        (checkProxyHealth wAllDown 10 staleRule "https://proxy.example" staleCache 9).cache
        11).probes ≠ [] ∧
    (checkProxyHealth wAllDown 10 staleRule "https://proxy.example"
        (checkProxyHealth wAllDown 10 staleRule "https://proxy.example" staleCache 9).cache
        11).healthy ≠
      (checkProxyHealth wAllDown 10 staleRule "https://proxy.example" staleCache 9).healthy := by
  decide

/-- C3 (amended): two consecutive checkProxyHealth calls for the same origin
within the TTL of each other make at most one probe round (at least one of
the two calls issues no network request), and whenever the first call did
probe (a cache miss), the second call — under any network oracle — issues no
probe, leaves the cache unchanged, and returns exactly the boolean the
first call cached. -/
theorem checkProxyHealth_cached_amended (w w2 : String → RequestOutcome) (ttlMs : Int)
    (rule : TransformationRule) (proxyBaseUrl : String) (cache : ProxyHealthCache)
    (t0 t1 : Int) (_hle : t0 ≤ t1) (httl : t1 - t0 < ttlMs) :
    ((checkProxyHealth w ttlMs rule proxyBaseUrl cache t0).probes = [] ∨
      (checkProxyHealth w2 ttlMs rule proxyBaseUrl
        (checkProxyHealth w ttlMs rule proxyBaseUrl cache t0).cache t1).probes = []) ∧
    ((checkProxyHealth w ttlMs rule proxyBaseUrl cache t0).probes ≠ [] →
      checkProxyHealth w2 ttlMs rule proxyBaseUrl
          (checkProxyHealth w ttlMs rule proxyBaseUrl cache t0).cache t1 =
        { healthy := (checkProxyHealth w ttlMs rule proxyBaseUrl cache t0).healthy
          cache := (checkProxyHealth w ttlMs rule proxyBaseUrl cache t0).cache
          probes := [] }) := by
  by_cases hv : isCacheValid ttlMs cache t0 proxyBaseUrl
  · have hR1 : (checkProxyHealth w ttlMs rule proxyBaseUrl cache t0).probes = [] := by
      unfold checkProxyHealth
      rw [if_pos hv]
    exact ⟨Or.inl hR1, fun hne => absurd hR1 hne⟩
  · have hR1 : checkProxyHealth w ttlMs rule proxyBaseUrl cache t0 =
        if checkProxyHealthWithTimeout (w (applyTransformation TEST_URL rule)) then
          { healthy := true
            cache := (proxyBaseUrl, { healthy := true, lastChecked := t0 }) :: cache
            probes := [applyTransformation TEST_URL rule] }
        else
          { healthy := checkProxyHealthWithTimeout (w proxyBaseUrl)
            cache := (proxyBaseUrl,
              { healthy := checkProxyHealthWithTimeout (w proxyBaseUrl), lastChecked := t0 })
              :: cache
            probes := [applyTransformation TEST_URL rule, proxyBaseUrl] } := by
      unfold checkProxyHealth
      rw [if_neg hv]
    by_cases h1 : checkProxyHealthWithTimeout (w (applyTransformation TEST_URL rule)) = true
    · rw [h1, if_pos rfl] at hR1
      rw [hR1]
      have hv2 : isCacheValid ttlMs
          ((proxyBaseUrl, { healthy := true, lastChecked := t0 }) :: cache) t1 proxyBaseUrl
          = true := by
        unfold isCacheValid
        rw [List.lookup_cons_self]
        simpa using httl
      constructor
      · right
        unfold checkProxyHealth
        rw [if_pos hv2]
      · intro hne
        unfold checkProxyHealth
        rw [if_pos hv2, List.lookup_cons_self]
        rfl
    · rw [Bool.not_eq_true] at h1
      rw [h1, if_neg (by simp)] at hR1
      rw [hR1]
      have hv2 : isCacheValid ttlMs
          ((proxyBaseUrl,
            { healthy := checkProxyHealthWithTimeout (w proxyBaseUrl), lastChecked := t0 })
            :: cache) t1 proxyBaseUrl = true := by
        unfold isCacheValid
        rw [List.lookup_cons_self]
        simpa using httl
      constructor
      · right
        unfold checkProxyHealth
        rw [if_pos hv2]
      · intro hne
        unfold checkProxyHealth
        rw [if_pos hv2, List.lookup_cons_self]
        rfl

/-- C3 witness: a first call on an empty cache probes; the second call 1000
ms later (TTL five minutes) is a pure cache read returning the first call's
healthy = true with no probe and an unchanged cache. -/
theorem checkProxyHealth_cached_amended_witness :
    checkProxyHealth wAllUp 300000 freediumRule "https://freedium-mirror.cfd"
        (checkProxyHealth wAllUp 300000 freediumRule "https://freedium-mirror.cfd" [] 0).cache
        1000 =
      { healthy := true
        cache := [("https://freedium-mirror.cfd", { healthy := true, lastChecked := 0 })]
        probes := [] } := by
  have h := (checkProxyHealth_cached_amended wAllUp wAllUp 300000 freediumRule
    "https://freedium-mirror.cfd" [] 0 1000 (by norm_num) (by norm_num)).2 (by decide)
  rw [h]
  decide

/-- C5: whenever a rule matched, the transformUrl result satisfies exactly
one of {transformed URL present, error present}; if the health check said
healthy, the result carries the expanded URL, the rule's name and
proxyHealthy = true with no error; if it said unhealthy, the transformed
URL is null, proxyHealthy = false, and the error is a nonempty message with
the matched rule's name embedded in it. -/
theorem transformUrl_matched_exclusive (w : String → RequestOutcome) (ttlMs : Int)
    (url : String) (rules : List TransformationRule) (cache : ProxyHealthCache) (now : Int)
    (rule : TransformationRule) (hr : findMatchingRule url rules = some rule) :
    (((transformUrl w ttlMs url rules cache now).result.transformedUrl ≠ none ∧
        (transformUrl w ttlMs url rules cache now).result.error = none) ∨
      ((transformUrl w ttlMs url rules cache now).result.transformedUrl = none ∧
        (transformUrl w ttlMs url rules cache now).result.error ≠ none)) ∧
    ((transformUrl w ttlMs url rules cache now).result.proxyHealthy = true →
      (transformUrl w ttlMs url rules cache now).result.transformedUrl =
          some (applyTransformation url rule) ∧
        (transformUrl w ttlMs url rules cache now).result.appliedRule = some rule.name ∧
        (transformUrl w ttlMs url rules cache now).result.error = none) ∧
    ((transformUrl w ttlMs url rules cache now).result.proxyHealthy = false →
      (transformUrl w ttlMs url rules cache now).result.transformedUrl = none ∧
        (transformUrl w ttlMs url rules cache now).result.appliedRule = some rule.name ∧
        ∃ msg, (transformUrl w ttlMs url rules cache now).result.error = some msg ∧
          msg ≠ "" ∧ rule.name.data <:+: msg.data) := by
  have hmsg : ("Proxy service \"" ++ rule.name ++ "\" is currently unavailable").data =
      "Proxy service \"".data ++ rule.name.data ++ "\" is currently unavailable".data := by
    rw [strData_append, strData_append]
  by_cases hb : (checkProxyHealth w ttlMs rule
      (extractProxyBaseUrl (applyTransformation url rule)) cache now).healthy = true
  · have ht : transformUrl w ttlMs url rules cache now =
        { result :=
            { transformedUrl := some (applyTransformation url rule), originalUrl := url
              appliedRule := some rule.name, proxyHealthy := true, error := none }
          cache := (checkProxyHealth w ttlMs rule
            (extractProxyBaseUrl (applyTransformation url rule)) cache now).cache
          probes := (checkProxyHealth w ttlMs rule
            (extractProxyBaseUrl (applyTransformation url rule)) cache now).probes } := by
      unfold transformUrl
      rw [hr]
      simp only [hb, if_true]
    rw [ht]
    refine ⟨Or.inl ⟨by simp, rfl⟩, fun _ => ⟨rfl, rfl, rfl⟩, fun hfalse => ?_⟩
    exact absurd hfalse (by simp)
  · rw [Bool.not_eq_true] at hb
    have ht : transformUrl w ttlMs url rules cache now =
        { result :=
            { transformedUrl := none, originalUrl := url
              appliedRule := some rule.name, proxyHealthy := false
              error := some ("Proxy service \"" ++ rule.name ++ "\" is currently unavailable") }
          cache := (checkProxyHealth w ttlMs rule
            (extractProxyBaseUrl (applyTransformation url rule)) cache now).cache
          probes := (checkProxyHealth w ttlMs rule
            (extractProxyBaseUrl (applyTransformation url rule)) cache now).probes } := by
      unfold transformUrl
      rw [hr]
      simp only [hb, Bool.false_eq_true, if_false]
    rw [ht]
    refine ⟨Or.inr ⟨rfl, by simp⟩, fun htrue => absurd htrue (by simp), fun _ => ⟨rfl, rfl, ?_⟩⟩
    refine ⟨"Proxy service \"" ++ rule.name ++ "\" is currently unavailable", rfl, ?_, ?_⟩
    · intro he
      have := congrArg String.data he
      rw [hmsg] at this
      simp at this
    · rw [hmsg]
      exact List.infix_append _ _ _

/-- C5 witness: the default rule matches a medium.com URL; with a healthy
proxy the result carries the expanded URL, the rule name, health true and no
error. -/
theorem transformUrl_matched_exclusive_witness :
    (transformUrl wAllUp 300000 "https://a.medium.com/x" [freediumRule] [] 0).result.transformedUrl =
      some "https://freedium-mirror.cfd/https://a.medium.com/x" ∧
    (transformUrl wAllUp 300000 "https://a.medium.com/x" [freediumRule] [] 0).result.error = none := by
  have h := (transformUrl_matched_exclusive wAllUp 300000 "https://a.medium.com/x" [freediumRule]
    [] 0 freediumRule (by decide)).2.1 (by decide)
  refine ⟨?_, h.2.2⟩
  rw [h.1]
  decide
